import Mathlib

/-!
Verification of the Sudoku engine (cell/board data model, rule validator,
backtracking solver, puzzle generator, hint provider) as a shallow embedding.

Conventions of the embedding:
* A cell is a record of the three private fields of the source class
  `Cell`: its numeric value (0 = empty), the given flag, and the validity
  flag (the flag toggled by mark_invalid / mark_valid).
* A board is a total function from a pair of Nat indices to cells; the
  source only ever reads and writes indices 0..8, so all operations touch
  only that range.  The source board always carries its `Validator`
  (the game injects it right after construction), so `Board.set_cell`
  performs the validation branch of the source; the solver pre-checks
  `is_valid_move` before each write, making its behaviour identical on
  boards with or without an injected validator.
* The recursive backtracking solver is embedded with an explicit fuel
  parameter (`solveF`); one unit of fuel is one nested invocation of the
  Python `solve`.  `none` means the recursion did not finish within the
  given fuel.  `Solver.solve` runs with fuel 82, which is proved
  sufficient for every board whose empty cells are all non-given.
* Randomness (`random.shuffle`, `random.choice`) is modelled by passing
  the shuffled list / chosen index as an explicit parameter.
-/

/-- The three fields of the source class Cell: `_value`, `_is_given`,
`_is_valid`. -/
structure Cell where
  value : Nat
  is_given : Bool
  is_valid : Bool
deriving DecidableEq

/-- The Cell() constructor: value 0, not given, valid. -/
def defaultCell : Cell := ⟨0, false, true⟩

/-- Cell.is_empty property: value == 0. -/
def Cell.is_empty (c : Cell) : Bool := c.value == 0

/-- A 9x9 board: the source stores 81 Cell objects addressed by
(row, col); we embed it as a total function on Nat pairs, of which only
indices 0..8 are ever read or written. -/
abbrev Board := Nat → Nat → Cell

/-- Writing one cell object of the grid (the effect of mutating the cell
stored at (row, col)). -/
def update_cell (b : Board) (row col : Nat) (c : Cell) : Board :=
  fun i j => if i = row ∧ j = col then c else b i j

/-- Board.get_cell. -/
def Board.get_cell (b : Board) (row col : Nat) : Cell := b row col

/-- Board() constructor: 81 default cells. -/
def emptyBoard : Board := fun _ _ => defaultCell

/-- Row-major list of the 81 positions, as traversed by every
`for row in range(9): for col in range(9)` loop of the source. -/
def allPositions : List (Nat × Nat) :=
  (List.range 9).flatMap (fun r => (List.range 9).map (fun c => (r, c)))

/-- Validator._check_row: true iff `num` occurs in no cell of `row`
other than column `skip_col`. -/
def check_row (b : Board) (row num skip_col : Nat) : Bool :=
  (List.range 9).all fun col => col == skip_col || !((b row col).value == num)

/-- Validator._check_column: true iff `num` occurs in no cell of `col`
other than row `skip_row`. -/
def check_column (b : Board) (col num skip_row : Nat) : Bool :=
  (List.range 9).all fun row => row == skip_row || !((b row col).value == num)

/-- Validator._check_box: true iff `num` occurs in no cell of the 3x3 box
of (row, col) other than (row, col) itself. -/
def check_box (b : Board) (row col num : Nat) : Bool :=
  (List.range 3).all fun i => (List.range 3).all fun j =>
    let r := row / 3 * 3 + i
    let c := col / 3 * 3 + j
    (r == row && c == col) || !((b r c).value == num)

/-- Validator.is_valid_move: 0 is always valid; otherwise the row, column
and box checks, each skipping the target cell. -/
def is_valid_move (b : Board) (row col num : Nat) : Bool :=
  if num == 0 then true
  else check_row b row num col && check_column b col num row && check_box b row col num

/-- Board.is_full: no empty cells among the 81 positions. -/
def Board.is_full (b : Board) : Bool :=
  allPositions.all fun p => !((b p.1 p.2).value == 0)

/-- Validator.is_board_solved: the board is full and every cell's
is_valid flag is set. -/
def is_board_solved (b : Board) : Bool :=
  b.is_full && allPositions.all fun p => (b p.1 p.2).is_valid

/-- Board.set_cell: refuse given cells; with the injected validator, a
nonzero value failing is_valid_move marks the cell invalid and returns
false; otherwise the value is stored and the cell marked valid. -/
def Board.set_cell (b : Board) (row col value : Nat) : Bool × Board :=
  let cell := b row col
  if cell.is_given then (false, b)
  else if value != 0 && !(is_valid_move b row col value) then
    (false, update_cell b row col { cell with is_valid := false })
  else (true, update_cell b row col { cell with value := value, is_valid := true })

/-- Board.clear_cell via Cell.clear: set the value to 0 unless the cell
is given; the validity flag is untouched. -/
def Board.clear_cell (b : Board) (row col : Nat) : Board :=
  let cell := b row col
  if cell.is_given then b else update_cell b row col { cell with value := 0 }

/-- Solver._find_empty_cell: first empty position in row-major order. -/
def find_empty_cell (b : Board) : Option (Nat × Nat) :=
  allPositions.find? fun p => (b p.1 p.2).value == 0

/-- The candidate loop of Solver.solve over the remaining candidates
(`for num in range(1, 10)`), parameterised by the recursive solver call
at the next depth.  The boolean result of set_cell is discarded, exactly
as in the source. -/
def try_nums (recsolve : Board → Option (Bool × Board)) (row col : Nat) :
    List Nat → Board → Option (Bool × Board)
  | [], b => some (false, b)
  | num :: rest, b =>
    if is_valid_move b row col num then
      match recsolve (Board.set_cell b row col num).2 with
      | none => none
      | some (true, b2) => some (true, b2)
      | some (false, b2) => try_nums recsolve row col rest (Board.clear_cell b2 row col)
    else try_nums recsolve row col rest b

/-- Solver.solve with explicit fuel: one unit of fuel per nested
invocation; `none` means the recursion did not return within the fuel. -/
def solveF : Nat → Board → Option (Bool × Board)
  | 0, _ => none
  | n + 1, b =>
    match find_empty_cell b with
    | none => some (true, b)
    | some (r, c) => try_nums (solveF n) r c [1, 2, 3, 4, 5, 6, 7, 8, 9] b

/-- Solver.solve: the backtracking recursion needs at most one nested
call per empty cell plus one, hence fuel 82 on a 9x9 board. -/
def Solver.solve (b : Board) : Option (Bool × Board) := solveF 82 b

/-- HintProvider._find_empty_cells: all empty positions, row-major. -/
def find_empty_cells (b : Board) : List (Nat × Nat) :=
  allPositions.filter fun p => (b p.1 p.2).value == 0

/-- HintProvider._copy_board: fresh board, copying value and given flag
of every non-empty cell; empty cells stay default ones. -/
def copy_board_hint (b : Board) : Board :=
  fun i j =>
    if i < 9 ∧ j < 9 ∧ ¬ (b i j).value = 0 then
      { value := (b i j).value, is_given := (b i j).is_given, is_valid := true }
    else defaultCell

/-- HintProvider.get_hint with the random.choice index passed as `k`:
if there is no empty cell return none; otherwise solve a copy, return
none on failure, else reveal the solved value of the chosen empty cell
of the original board. -/
def get_hint (k : Nat) (b : Board) : Option (Nat × Nat × Nat) :=
  let empty_cells := find_empty_cells b
  if empty_cells = [] then none
  else
    match Solver.solve (copy_board_hint b) with
    | some (true, solved) =>
      let p := empty_cells.getD (k % empty_cells.length) (0, 0)
      some (p.1, p.2, (solved p.1 p.2).value)
    | _ => none

/-- PuzzleGenerator._fill_box: write the shuffled numbers into the 3x3
box at (row_start, col_start) in row-major order, by direct field writes
(only the value field changes). -/
def fill_box (b : Board) (row_start col_start : Nat) (numbers : List Nat) : Board :=
  fun i j =>
    if row_start ≤ i ∧ i < row_start + 3 ∧ col_start ≤ j ∧ j < col_start + 3 then
      { b i j with value := numbers.getD ((i - row_start) * 3 + (j - col_start)) 0 }
    else b i j

/-- PuzzleGenerator._create_full_board: seed the three diagonal boxes
with the three shuffled lists, then run the solver in place (its boolean
result is discarded by the source). -/
def create_full_board (p1 p2 p3 : List Nat) : Board :=
  let seeded := fill_box (fill_box (fill_box emptyBoard 0 0 p1) 3 3 p2) 6 6 p3
  match Solver.solve seeded with
  | some (_, b) => b
  | none => seeded

/-- PuzzleGenerator._copy_board: copy every value, reset the given
flags. -/
def copy_board_gen (b : Board) : Board :=
  fun i j => if i < 9 ∧ j < 9 then ⟨(b i j).value, false, true⟩ else defaultCell

/-- PuzzleGenerator._remove_numbers over the shuffled position list:
stop at the removal target; skip empty cells; clear a cell, keep the
clearing if a copy still solves, otherwise restore the backup value. -/
def remove_numbers : List (Nat × Nat) → Board → Nat → Nat → Board
  | [], b, _, _ => b
  | (r, c) :: rest, b, count, removed =>
    if count ≤ removed then b
    else if (b r c).value == 0 then remove_numbers rest b count removed
    else
      let backup := (b r c).value
      let b1 := update_cell b r c { b r c with value := 0 }
      match Solver.solve (copy_board_gen b1) with
      | some (true, _) => remove_numbers rest b1 count (removed + 1)
      | _ => remove_numbers rest (update_cell b1 r c { b1 r c with value := backup }) count removed

/-- Step 3 of PuzzleGenerator.generate: flag every non-empty cell as
given (a direct write of the private field). -/
def mark_givens (b : Board) : Board :=
  fun i j =>
    if i < 9 ∧ j < 9 ∧ ¬ (b i j).value = 0 then { b i j with is_given := true } else b i j

/-- PuzzleGenerator.generate with the shuffles passed explicitly:
build a full board, carve `count` cells along the shuffled positions,
then mark the remaining cells given. -/
def generate (p1 p2 p3 : List Nat) (positions : List (Nat × Nat)) (count : Nat) : Board :=
  mark_givens (remove_numbers positions (create_full_board p1 p2 p3) count 0)

/-- Two positions share a row, a column, or a 3x3 box. -/
def same_unit (p q : Nat × Nat) : Prop :=
  p.1 = q.1 ∨ p.2 = q.2 ∨ (p.1 / 3 = q.1 / 3 ∧ p.2 / 3 = q.2 / 3)

instance (p q : Nat × Nat) : Decidable (same_unit p q) := by
  unfold same_unit; exact inferInstance

/-- Duplicate-freeness of the grid: no two distinct positions of a common
row, column, or box hold the same nonzero value. -/
def consistent (b : Board) : Prop :=
  ∀ p ∈ allPositions, ∀ q ∈ allPositions, p ≠ q → same_unit p q →
    (b p.1 p.2).value ≠ 0 → (b p.1 p.2).value ≠ (b q.1 q.2).value

/-- No given cell of the board is empty (given cells really carry
clues). -/
def noGivenEmpty (b : Board) : Prop :=
  ∀ p ∈ allPositions, (b p.1 p.2).value = 0 → (b p.1 p.2).is_given = false

/-- Number of empty cells among the 81 positions. -/
def emptyCount (b : Board) : Nat :=
  allPositions.countP fun p => (b p.1 p.2).value == 0

/-! ### Basic facts about positions, updates and the checks -/

theorem mem_allPositions (p : Nat × Nat) : p ∈ allPositions ↔ p.1 < 9 ∧ p.2 < 9 := by
  obtain ⟨r, c⟩ := p
  simp only [allPositions, List.mem_flatMap, List.mem_map, List.mem_range, Prod.mk.injEq]
  constructor
  · rintro ⟨a, ha, b, hb, rfl, rfl⟩
    exact ⟨ha, hb⟩
  · rintro ⟨h1, h2⟩
    exact ⟨r, h1, c, h2, rfl, rfl⟩

theorem allPositions_nodup : allPositions.Nodup := by decide

theorem update_cell_same (b : Board) (r c : Nat) (cell : Cell) :
    update_cell b r c cell r c = cell := by
  simp [update_cell]

theorem update_cell_apply (b : Board) (r c : Nat) (cell : Cell) (i j : Nat) :
    update_cell b r c cell i j = if i = r ∧ j = c then cell else b i j := rfl

theorem update_cell_other (b : Board) (r c : Nat) (cell : Cell) (i j : Nat)
    (h : ¬ (i = r ∧ j = c)) : update_cell b r c cell i j = b i j := by
  simp [update_cell, h]

theorem check_row_iff (b : Board) (row num skip_col : Nat) :
    check_row b row num skip_col = true ↔
      ∀ col, col < 9 → col ≠ skip_col → (b row col).value ≠ num := by
  simp only [check_row, List.all_eq_true, List.mem_range, Bool.or_eq_true, beq_iff_eq,
    Bool.not_eq_true', beq_eq_false_iff_ne]
  constructor
  · intro h col hc hne
    rcases h col hc with h1 | h1
    · exact absurd h1 hne
    · exact h1
  · intro h col hc
    by_cases hcs : col = skip_col
    · exact Or.inl hcs
    · exact Or.inr (h col hc hcs)

theorem check_column_iff (b : Board) (col num skip_row : Nat) :
    check_column b col num skip_row = true ↔
      ∀ row, row < 9 → row ≠ skip_row → (b row col).value ≠ num := by
  simp only [check_column, List.all_eq_true, List.mem_range, Bool.or_eq_true, beq_iff_eq,
    Bool.not_eq_true', beq_eq_false_iff_ne]
  constructor
  · intro h row hr hne
    rcases h row hr with h1 | h1
    · exact absurd h1 hne
    · exact h1
  · intro h row hr
    by_cases hrs : row = skip_row
    · exact Or.inl hrs
    · exact Or.inr (h row hr hrs)

theorem check_box_iff (b : Board) (row col num : Nat) :
    check_box b row col num = true ↔
      ∀ i, i < 3 → ∀ j, j < 3 →
        ¬ (row / 3 * 3 + i = row ∧ col / 3 * 3 + j = col) →
        (b (row / 3 * 3 + i) (col / 3 * 3 + j)).value ≠ num := by
  simp only [check_box, List.all_eq_true, List.mem_range, Bool.or_eq_true, Bool.and_eq_true,
    beq_iff_eq, Bool.not_eq_true', beq_eq_false_iff_ne]
  constructor
  · intro h i hi j hj hne
    rcases h i hi j hj with h1 | h1
    · exact absurd h1 hne
    · exact h1
  · intro h i hi j hj
    by_cases hd : row / 3 * 3 + i = row ∧ col / 3 * 3 + j = col
    · exact Or.inl hd
    · exact Or.inr (h i hi j hj hd)

theorem is_valid_move_zero (b : Board) (row col : Nat) :
    is_valid_move b row col 0 = true := by
  simp [is_valid_move]

theorem is_valid_move_nonzero (b : Board) (row col num : Nat) (h : num ≠ 0) :
    is_valid_move b row col num =
      (check_row b row num col && check_column b col num row && check_box b row col num) := by
  simp [is_valid_move, h]

/-- Semantic reading of is_valid_move for a nonzero value: no other cell
of the same row, column, or box currently holds the value. -/
theorem is_valid_move_char (b : Board) (row col num : Nat)
    (hr : row < 9) (hc : col < 9) (hnum : num ≠ 0) :
    is_valid_move b row col num = true ↔
      ∀ p ∈ allPositions, p ≠ (row, col) → same_unit p (row, col) →
        (b p.1 p.2).value ≠ num := by
  rw [is_valid_move_nonzero b row col num hnum]
  simp only [Bool.and_eq_true, check_row_iff, check_column_iff, check_box_iff]
  constructor
  · rintro ⟨⟨hrow, hcol⟩, hbox⟩ p hp hne hu
    obtain ⟨r0, c0⟩ := p
    rw [mem_allPositions] at hp
    obtain ⟨hp1, hp2⟩ := hp
    rcases hu with h1 | h1 | h1
    · simp only at h1
      subst h1
      have hne2 : c0 ≠ col := fun h => hne (by simp [h])
      exact hrow c0 hp2 hne2
    · simp only at h1
      subst h1
      have hne2 : r0 ≠ row := fun h => hne (by simp [h])
      exact hcol r0 hp1 hne2
    · obtain ⟨hb1, hb2⟩ := h1
      simp only at hb1 hb2
      have hi : r0 = row / 3 * 3 + (r0 - row / 3 * 3) ∧ r0 - row / 3 * 3 < 3 := by omega
      have hj : c0 = col / 3 * 3 + (c0 - col / 3 * 3) ∧ c0 - col / 3 * 3 < 3 := by omega
      have hne2 : ¬ (row / 3 * 3 + (r0 - row / 3 * 3) = row ∧
          col / 3 * 3 + (c0 - col / 3 * 3) = col) := by
        rintro ⟨e1, e2⟩
        exact hne (by rw [← hi.1] at e1; rw [← hj.1] at e2; simp [e1, e2])
      have := hbox (r0 - row / 3 * 3) hi.2 (c0 - col / 3 * 3) hj.2 hne2
      rw [← hi.1, ← hj.1] at this
      exact this
  · intro h
    refine ⟨⟨?_, ?_⟩, ?_⟩
    · intro c0 hc0 hne
      exact h (row, c0) (by rw [mem_allPositions]; exact ⟨hr, hc0⟩)
        (fun he => hne (by simpa using congrArg Prod.snd he)) (Or.inl rfl)
    · intro r0 hr0 hne
      exact h (r0, col) (by rw [mem_allPositions]; exact ⟨hr0, hc⟩)
        (fun he => hne (by simpa using congrArg Prod.fst he)) (Or.inr (Or.inl rfl))
    · intro i hi j hj hne
      refine h (row / 3 * 3 + i, col / 3 * 3 + j) ?_ ?_ ?_
      · rw [mem_allPositions]
        constructor <;> [skip; skip] <;> simp only <;> omega
      · intro he
        rw [Prod.mk.injEq] at he
        exact hne he
      · refine Or.inr (Or.inr ⟨?_, ?_⟩) <;> simp only <;> omega

theorem find_empty_cell_eq_none_iff (b : Board) :
    find_empty_cell b = none ↔ b.is_full = true := by
  simp [find_empty_cell, List.find?_eq_none, Board.is_full, List.all_eq_true]

theorem find_empty_cell_some (b : Board) (r c : Nat)
    (h : find_empty_cell b = some (r, c)) :
    r < 9 ∧ c < 9 ∧ (b r c).value = 0 := by
  have hmem := List.mem_of_find?_eq_some h
  rw [mem_allPositions] at hmem
  have hval := List.find?_some h
  simp only [beq_iff_eq] at hval
  exact ⟨hmem.1, hmem.2, hval⟩

theorem find_empty_cell_eq_head (b : Board) :
    find_empty_cell b = (find_empty_cells b).head? :=
  (List.filter_head? _ _).symm

theorem mem_find_empty_cells (b : Board) (p : Nat × Nat) :
    p ∈ find_empty_cells b ↔ (p.1 < 9 ∧ p.2 < 9) ∧ (b p.1 p.2).value = 0 := by
  simp [find_empty_cells, List.mem_filter, mem_allPositions]

/-! ### Behaviour of set_cell and clear_cell -/

theorem set_cell_given (b : Board) (row col v : Nat) (h : (b row col).is_given = true) :
    Board.set_cell b row col v = (false, b) := by
  simp [Board.set_cell, h]

theorem set_cell_invalid (b : Board) (row col v : Nat)
    (hg : (b row col).is_given = false) (hv : v ≠ 0)
    (hm : is_valid_move b row col v = false) :
    Board.set_cell b row col v =
      (false, update_cell b row col { b row col with is_valid := false }) := by
  simp [Board.set_cell, hg, hv, hm]

theorem set_cell_ok (b : Board) (row col v : Nat)
    (hg : (b row col).is_given = false)
    (hm : v = 0 ∨ is_valid_move b row col v = true) :
    Board.set_cell b row col v =
      (true, update_cell b row col { b row col with value := v, is_valid := true }) := by
  rcases hm with h | h
  · subst h; simp [Board.set_cell, hg]
  · simp [Board.set_cell, hg, h]

theorem clear_cell_given (b : Board) (row col : Nat) (h : (b row col).is_given = true) :
    Board.clear_cell b row col = b := by
  simp [Board.clear_cell, h]

theorem clear_cell_free (b : Board) (row col : Nat) (h : (b row col).is_given = false) :
    Board.clear_cell b row col = update_cell b row col { b row col with value := 0 } := by
  simp [Board.clear_cell, h]

theorem update_cell_given_eq (b : Board) (r c : Nat) (cell : Cell)
    (h : cell.is_given = (b r c).is_given) (i j : Nat) :
    (update_cell b r c cell i j).is_given = (b i j).is_given := by
  by_cases hij : i = r ∧ j = c
  · obtain ⟨rfl, rfl⟩ := hij
    rw [update_cell_same, h]
  · rw [update_cell_other b r c cell i j hij]

/-! ### Consistency and the empty-cell count -/

theorem same_unit_symm {p q : Nat × Nat} (h : same_unit p q) : same_unit q p := by
  rcases h with h | h | h
  · exact Or.inl h.symm
  · exact Or.inr (Or.inl h.symm)
  · exact Or.inr (Or.inr ⟨h.1.symm, h.2.symm⟩)

theorem ne_pair_iff (q : Nat × Nat) (r c : Nat) : q ≠ (r, c) ↔ ¬ (q.1 = r ∧ q.2 = c) := by
  rw [Ne, Prod.ext_iff]

theorem consistent_of_values_eq (b1 b2 : Board)
    (h : ∀ i j, i < 9 → j < 9 → (b1 i j).value = (b2 i j).value)
    (hc : consistent b1) : consistent b2 := by
  intro p hp q hq hne hu hz
  have hp2 := (mem_allPositions p).mp hp
  have hq2 := (mem_allPositions q).mp hq
  rw [← h p.1 p.2 hp2.1 hp2.2] at hz ⊢
  rw [← h q.1 q.2 hq2.1 hq2.2]
  exact hc p hp q hq hne hu hz

theorem emptyCount_congr (b1 b2 : Board)
    (h : ∀ i j, i < 9 → j < 9 → (b1 i j).value = (b2 i j).value) :
    emptyCount b1 = emptyCount b2 := by
  refine List.countP_congr fun p hp => ?_
  have hp2 := (mem_allPositions p).mp hp
  rw [h p.1 p.2 hp2.1 hp2.2]

theorem noGivenEmpty_congr (b1 b2 : Board)
    (hv : ∀ i j, i < 9 → j < 9 → (b1 i j).value = (b2 i j).value)
    (hg : ∀ i j, (b1 i j).is_given = (b2 i j).is_given)
    (h : noGivenEmpty b1) : noGivenEmpty b2 := by
  intro p hp hz
  have hp2 := (mem_allPositions p).mp hp
  rw [← hg p.1 p.2]
  exact h p hp (by rw [hv p.1 p.2 hp2.1 hp2.2]; exact hz)

/-- Placing a value that passes is_valid_move keeps the grid
duplicate-free. -/
theorem consistent_update (b : Board) (r c num : Nat) (cell : Cell)
    (hr : r < 9) (hc : c < 9) (hcons : consistent b)
    (hv : is_valid_move b r c num = true) (hval : cell.value = num) :
    consistent (update_cell b r c cell) := by
  intro p hp q hq hne hu hpz
  by_cases hpc : p = (r, c)
  · by_cases hqc : q = (r, c)
    · exact absurd (hpc.trans hqc.symm) hne
    · subst hpc
      rw [show update_cell b r c cell r c = cell from update_cell_same b r c cell] at hpz ⊢
      rw [update_cell_other b r c cell q.1 q.2 ((ne_pair_iff q r c).mp hqc)]
      have hnum : num ≠ 0 := by rw [← hval]; exact hpz
      have := (is_valid_move_char b r c num hr hc hnum).mp hv q hq hqc (same_unit_symm hu)
      rw [hval]
      exact fun he => this he.symm
  · rw [update_cell_other b r c cell p.1 p.2 ((ne_pair_iff p r c).mp hpc)] at hpz ⊢
    by_cases hqc : q = (r, c)
    · have hq1 : q.1 = r := by rw [hqc]
      have hq2 : q.2 = c := by rw [hqc]
      rw [hqc] at hu
      rw [hq1, hq2, show update_cell b r c cell r c = cell from update_cell_same b r c cell]
      by_cases hnum : num = 0
      · rw [hval, hnum]; exact hpz
      · have := (is_valid_move_char b r c num hr hc hnum).mp hv p hp hpc hu
        rw [hval]
        exact this
    · rw [update_cell_other b r c cell q.1 q.2 ((ne_pair_iff q r c).mp hqc)]
      exact hcons p hp q hq hne hu hpz

/-- Changing one true-position of a predicate to false lowers countP by
one on a duplicate-free list. -/
theorem countP_flip_one {α : Type} (p q : α → Bool) :
    ∀ (l : List α) (x : α), l.Nodup → x ∈ l → p x = true → q x = false →
      (∀ y ∈ l, y ≠ x → p y = q y) → l.countP q + 1 = l.countP p := by
  intro l
  induction l with
  | nil => intro x _ hx; cases hx
  | cons a t ih =>
    intro x hnd hx hp hq hcong
    rw [List.countP_cons, List.countP_cons]
    rcases List.mem_cons.mp hx with rfl | hxt
    · have hax : x ∉ t := (List.nodup_cons.mp hnd).1
      have ht : t.countP q = t.countP p := by
        refine List.countP_congr fun y hy => ?_
        rw [hcong y (List.mem_cons_of_mem x hy) (fun he => hax (he ▸ hy))]
      rw [ht, hp, hq]
      simp
    · have hax : a ≠ x := by
        intro he
        exact (List.nodup_cons.mp hnd).1 (he ▸ hxt)
      have ha : p a = q a := hcong a (List.mem_cons_self a t) hax
      have := ih x (List.nodup_cons.mp hnd).2 hxt hp hq
        (fun y hy hne => hcong y (List.mem_cons_of_mem a hy) hne)
      rw [← ha]
      omega

theorem emptyCount_update_nonzero (b : Board) (r c : Nat) (cell : Cell)
    (hr : r < 9) (hc : c < 9) (h0 : (b r c).value = 0) (hnz : cell.value ≠ 0) :
    emptyCount (update_cell b r c cell) + 1 = emptyCount b := by
  refine countP_flip_one _ _ allPositions (r, c) allPositions_nodup
    ((mem_allPositions (r, c)).mpr ⟨hr, hc⟩) ?_ ?_ ?_
  · simp only [h0]; rfl
  · rw [show update_cell b r c cell (r, c).1 (r, c).2 = cell from update_cell_same b r c cell]
    exact beq_eq_false_iff_ne.mpr hnz
  · intro y _ hy
    rw [update_cell_other b r c cell y.1 y.2 ((ne_pair_iff y r c).mp hy)]

theorem emptyCount_pos (b : Board) (r c : Nat)
    (hr : r < 9) (hc : c < 9) (h0 : (b r c).value = 0) : 0 < emptyCount b := by
  refine List.countP_pos_iff.mpr ⟨(r, c), (mem_allPositions (r, c)).mpr ⟨hr, hc⟩, ?_⟩
  simp only [h0]; rfl

theorem emptyCount_le (b : Board) : emptyCount b ≤ 81 := by
  have := List.countP_le_length (l := allPositions)
    (p := fun p => (b p.1 p.2).value == 0)
  simpa [allPositions] using this

theorem set_cell_given_snd (b : Board) (row col v : Nat) (h : (b row col).is_given = true) :
    (Board.set_cell b row col v).2 = b := by
  rw [set_cell_given b row col v h]

theorem set_cell_ok_snd (b : Board) (row col v : Nat)
    (hg : (b row col).is_given = false)
    (hm : v = 0 ∨ is_valid_move b row col v = true) :
    (Board.set_cell b row col v).2 =
      update_cell b row col { b row col with value := v, is_valid := true } := by
  rw [set_cell_ok b row col v hg hm]

/-! ### Soundness of the backtracking solver -/

/-- Combined soundness of the fuel-indexed solver: given flags are never
changed; on failure every cell value is restored; on success the board
is full and duplicate-freeness of the start board is preserved. -/
theorem solveF_sound : ∀ (n : Nat) (b : Board) (ok : Bool) (b2 : Board),
    solveF n b = some (ok, b2) →
      (∀ i j, (b2 i j).is_given = (b i j).is_given)
      ∧ (ok = false → ∀ i j, (b2 i j).value = (b i j).value)
      ∧ (ok = true → b2.is_full = true ∧ (consistent b → consistent b2)) := by
  intro n
  induction n with
  | zero => intro b ok b2 h; exact Option.noConfusion h
  | succ n ih =>
    intro b ok b2 h
    have h1 : (match find_empty_cell b with
        | none => some (true, b)
        | some (r, c) => try_nums (solveF n) r c [1, 2, 3, 4, 5, 6, 7, 8, 9] b) =
        some (ok, b2) := h
    cases hfe : find_empty_cell b with
    | none =>
      rw [hfe] at h1
      have h2 : some (true, b) = some (ok, b2) := h1
      injection h2 with h3
      injection h3 with h4 h5
      subst h5
      refine ⟨fun i j => rfl, fun hok => absurd (h4.trans hok) (by simp), fun _ => ?_⟩
      exact ⟨(find_empty_cell_eq_none_iff b).mp hfe, id⟩
    | some p =>
      obtain ⟨r, c⟩ := p
      obtain ⟨hr, hc, hv0⟩ := find_empty_cell_some b r c hfe
      rw [hfe] at h1
      -- the candidate loop, by induction over the remaining candidates
      have loop : ∀ (nums : List Nat), (∀ m ∈ nums, m ≠ 0) →
          ∀ (x : Board) (ok1 : Bool) (b3 : Board), (x r c).value = 0 →
            try_nums (solveF n) r c nums x = some (ok1, b3) →
            (∀ i j, (b3 i j).is_given = (x i j).is_given)
            ∧ (ok1 = false → ∀ i j, (b3 i j).value = (x i j).value)
            ∧ (ok1 = true → b3.is_full = true ∧ (consistent x → consistent b3)) := by
        intro nums
        induction nums with
        | nil =>
          intro _ x ok1 b3 hx h
          have h2 : some (false, x) = some (ok1, b3) := h
          injection h2 with h3
          injection h3 with h4 h5
          subst h5
          exact ⟨fun i j => rfl, fun _ i j => rfl,
            fun hok => absurd (h4.trans hok) (by simp)⟩
        | cons num rest ihn =>
          intro hnz x ok1 b3 hx h
          have hnum0 : num ≠ 0 := hnz num (List.mem_cons_self num rest)
          have hrest : ∀ m ∈ rest, m ≠ 0 := fun m hm => hnz m (List.mem_cons_of_mem num hm)
          have h2 : (if is_valid_move x r c num = true then
              match solveF n (Board.set_cell x r c num).2 with
              | none => none
              | some (true, bb) => some (true, bb)
              | some (false, bb) =>
                try_nums (solveF n) r c rest (Board.clear_cell bb r c)
              else try_nums (solveF n) r c rest x) = some (ok1, b3) := h
          by_cases hvm : is_valid_move x r c num = true
          · rw [if_pos hvm] at h2
            by_cases hg : (x r c).is_given = true
            · -- the empty cell is a given cell: set_cell silently refuses
              rw [set_cell_given_snd x r c num hg] at h2
              cases hrec : solveF n x with
              | none => rw [hrec] at h2; exact Option.noConfusion h2
              | some res =>
                obtain ⟨okr, br⟩ := res
                rw [hrec] at h2
                obtain ⟨gs, vs, fs⟩ := ih x okr br hrec
                cases okr with
                | true =>
                  have h3 : some (true, br) = some (ok1, b3) := h2
                  injection h3 with h4
                  injection h4 with h5 h6
                  subst h6
                  exact ⟨gs, fun hok => absurd (h5.trans hok) (by simp),
                    fun _ => fs rfl⟩
                | false =>
                  have hbg : (br r c).is_given = true := by rw [gs r c]; exact hg
                  have h3 : try_nums (solveF n) r c rest (Board.clear_cell br r c)
                      = some (ok1, b3) := h2
                  rw [clear_cell_given br r c hbg] at h3
                  have hbx : (br r c).value = 0 := by rw [vs rfl r c]; exact hx
                  obtain ⟨gs2, vs2, fs2⟩ := ihn hrest br ok1 b3 hbx h3
                  refine ⟨fun i j => (gs2 i j).trans (gs i j),
                    fun hok i j => (vs2 hok i j).trans (vs rfl i j), fun hok => ?_⟩
                  refine ⟨(fs2 hok).1, fun hcx => (fs2 hok).2 ?_⟩
                  exact consistent_of_values_eq x br
                    (fun i j _ _ => (vs rfl i j).symm) hcx
            · -- a free empty cell: set_cell stores the candidate
              have hgf : (x r c).is_given = false := by
                cases hgg : (x r c).is_given with
                | true => exact absurd hgg hg
                | false => rfl
              rw [set_cell_ok_snd x r c num hgf (Or.inr hvm)] at h2
              cases hrec : solveF n
                  (update_cell x r c { x r c with value := num, is_valid := true }) with
              | none => rw [hrec] at h2; exact Option.noConfusion h2
              | some res =>
                obtain ⟨okr, br⟩ := res
                rw [hrec] at h2
                obtain ⟨gs, vs, fs⟩ := ih _ okr br hrec
                have hx1g : ∀ i j,
                    ((update_cell x r c { x r c with value := num, is_valid := true }) i j).is_given
                    = (x i j).is_given :=
                  update_cell_given_eq x r c _ rfl
                cases okr with
                | true =>
                  have h3 : some (true, br) = some (ok1, b3) := h2
                  injection h3 with h4
                  injection h4 with h5 h6
                  subst h6
                  refine ⟨fun i j => (gs i j).trans (hx1g i j),
                    fun hok => absurd (h5.trans hok) (by simp), fun _ => ?_⟩
                  refine ⟨(fs rfl).1, fun hcx => (fs rfl).2 ?_⟩
                  exact consistent_update x r c num _ hr hc hcx hvm rfl
                | false =>
                  have hbg : (br r c).is_given = false := by
                    rw [gs r c, hx1g r c]; exact hgf
                  have h3 : try_nums (solveF n) r c rest (Board.clear_cell br r c)
                      = some (ok1, b3) := h2
                  rw [clear_cell_free br r c hbg] at h3
                  have hx2v : ∀ i j,
                      ((update_cell br r c { br r c with value := 0 }) i j).value
                      = (x i j).value := by
                    intro i j
                    by_cases hij : i = r ∧ j = c
                    · obtain ⟨rfl, rfl⟩ := hij
                      rw [update_cell_same]
                      exact hx.symm
                    · rw [update_cell_other br r c _ i j hij, vs rfl i j,
                        update_cell_other x r c _ i j hij]
                  have hx2g : ∀ i j,
                      ((update_cell br r c { br r c with value := 0 }) i j).is_given
                      = (x i j).is_given := by
                    intro i j
                    rw [update_cell_given_eq br r c { br r c with value := 0 } rfl i j,
                      gs i j, hx1g i j]
                  have hx2x : ((update_cell br r c { br r c with value := 0 }) r c).value = 0 := by
                    rw [update_cell_same]
                  obtain ⟨gs2, vs2, fs2⟩ := ihn hrest _ ok1 b3 hx2x h3
                  refine ⟨fun i j => (gs2 i j).trans (hx2g i j),
                    fun hok i j => (vs2 hok i j).trans (hx2v i j), fun hok => ?_⟩
                  refine ⟨(fs2 hok).1, fun hcx => (fs2 hok).2 ?_⟩
                  exact consistent_of_values_eq x _
                    (fun i j _ _ => (hx2v i j).symm) hcx
          · rw [if_neg hvm] at h2
            exact ihn hrest x ok1 b3 hx h2
      exact loop [1, 2, 3, 4, 5, 6, 7, 8, 9] (by decide) b ok b2 hv0 h1

/-- Progress of the fuel-indexed solver: on a board whose empty cells are
all non-given, fuel exceeding the number of empty cells suffices for the
recursion to return. -/
theorem solveF_progress : ∀ (n : Nat) (b : Board), noGivenEmpty b → emptyCount b < n →
    ∃ res, solveF n b = some res := by
  intro n
  induction n with
  | zero => intro b _ hcount; exact absurd hcount (Nat.not_lt_zero _)
  | succ n ih =>
    intro b hng hcount
    cases hfe : find_empty_cell b with
    | none =>
      refine ⟨(true, b), ?_⟩
      have e : solveF (n + 1) b = (match find_empty_cell b with
          | none => some (true, b)
          | some (r, c) => try_nums (solveF n) r c [1, 2, 3, 4, 5, 6, 7, 8, 9] b) := rfl
      rw [e, hfe]
    | some p =>
      obtain ⟨r, c⟩ := p
      obtain ⟨hr, hc, hv0⟩ := find_empty_cell_some b r c hfe
      have loop : ∀ (nums : List Nat), (∀ m ∈ nums, m ≠ 0) →
          ∀ (x : Board), noGivenEmpty x → (x r c).value = 0 → emptyCount x ≤ n →
            ∃ res, try_nums (solveF n) r c nums x = some res := by
        intro nums
        induction nums with
        | nil => intro _ x _ _ _; exact ⟨(false, x), rfl⟩
        | cons num rest ihn =>
          intro hnz x hngx hx hcx
          have hnum0 : num ≠ 0 := hnz num (List.mem_cons_self num rest)
          have hrest : ∀ m ∈ rest, m ≠ 0 := fun m hm => hnz m (List.mem_cons_of_mem num hm)
          by_cases hvm : is_valid_move x r c num = true
          · have hgfx : (x r c).is_given = false :=
              hngx (r, c) ((mem_allPositions (r, c)).mpr ⟨hr, hc⟩) hx
            have hdec : emptyCount (update_cell x r c
                { x r c with value := num, is_valid := true }) + 1 = emptyCount x :=
              emptyCount_update_nonzero x r c _ hr hc hx hnum0
            have hpos : 0 < emptyCount x := emptyCount_pos x r c hr hc hx
            have hlt : emptyCount (update_cell x r c
                { x r c with value := num, is_valid := true }) < n := by omega
            have hng1 : noGivenEmpty (update_cell x r c
                { x r c with value := num, is_valid := true }) := by
              intro q hq hqz
              by_cases hqc : q.1 = r ∧ q.2 = c
              · obtain ⟨e1, e2⟩ := hqc
                rw [e1, e2, update_cell_same] at hqz
                exact absurd hqz hnum0
              · rw [update_cell_other x r c _ q.1 q.2 hqc] at hqz ⊢
                exact hngx q hq hqz
            obtain ⟨⟨okr, br⟩, hrec⟩ := ih _ hng1 hlt
            cases okr with
            | true =>
              refine ⟨(true, br), ?_⟩
              simp only [try_nums]
              rw [if_pos hvm, set_cell_ok_snd x r c num hgfx (Or.inr hvm), hrec]
            | false =>
              obtain ⟨gs, vs, _⟩ := solveF_sound n _ false br hrec
              have hx1g : ∀ i j,
                  ((update_cell x r c { x r c with value := num, is_valid := true }) i j).is_given
                  = (x i j).is_given :=
                update_cell_given_eq x r c _ rfl
              have hbg : (br r c).is_given = false := by
                rw [gs r c, hx1g r c]; exact hgfx
              have hx2v : ∀ i j,
                  ((update_cell br r c { br r c with value := 0 }) i j).value
                  = (x i j).value := by
                intro i j
                by_cases hij : i = r ∧ j = c
                · obtain ⟨rfl, rfl⟩ := hij
                  rw [update_cell_same]
                  exact hx.symm
                · rw [update_cell_other br r c _ i j hij, vs rfl i j,
                    update_cell_other x r c _ i j hij]
              have hx2g : ∀ i j,
                  ((update_cell br r c { br r c with value := 0 }) i j).is_given
                  = (x i j).is_given := by
                intro i j
                rw [update_cell_given_eq br r c { br r c with value := 0 } rfl i j,
                  gs i j, hx1g i j]
              have hng2 : noGivenEmpty (update_cell br r c { br r c with value := 0 }) :=
                noGivenEmpty_congr x _ (fun i j _ _ => (hx2v i j).symm)
                  (fun i j => (hx2g i j).symm) hngx
              have hcx2 : emptyCount (update_cell br r c { br r c with value := 0 }) ≤ n := by
                rw [emptyCount_congr _ x (fun i j _ _ => hx2v i j)]
                exact hcx
              have hx2x : ((update_cell br r c { br r c with value := 0 }) r c).value = 0 := by
                rw [update_cell_same]
              obtain ⟨res, hres⟩ := ihn hrest _ hng2 hx2x hcx2
              refine ⟨res, ?_⟩
              simp only [try_nums]
              rw [if_pos hvm, set_cell_ok_snd x r c num hgfx (Or.inr hvm), hrec]
              have e : (match some (false, br) with
                  | none => (none : Option (Bool × Board))
                  | some (true, bb) => some (true, bb)
                  | some (false, bb) => try_nums (solveF n) r c rest (Board.clear_cell bb r c))
                  = try_nums (solveF n) r c rest (Board.clear_cell br r c) := rfl
              rw [e, clear_cell_free br r c hbg]
              exact hres
          · obtain ⟨res, hres⟩ := ihn hrest x hngx hx hcx
            refine ⟨res, ?_⟩
            simp only [try_nums]
            rw [if_neg hvm]
            exact hres
      obtain ⟨res, hres⟩ := loop [1, 2, 3, 4, 5, 6, 7, 8, 9] (by decide) b hng hv0 (by omega)
      refine ⟨res, ?_⟩
      have e : solveF (n + 1) b = (match find_empty_cell b with
          | none => some (true, b)
          | some (r, c) => try_nums (solveF n) r c [1, 2, 3, 4, 5, 6, 7, 8, 9] b) := rfl
      rw [e, hfe]
      exact hres

/-! ### Unfolding helpers for the solver -/

theorem solveF_succ (n : Nat) (b : Board) :
    solveF (n + 1) b = (match find_empty_cell b with
      | none => some (true, b)
      | some (r, c) => try_nums (solveF n) r c [1, 2, 3, 4, 5, 6, 7, 8, 9] b) := rfl

theorem solveF_succ_none (n : Nat) (b : Board) (h : find_empty_cell b = none) :
    solveF (n + 1) b = some (true, b) := by
  rw [solveF_succ, h]

theorem solveF_succ_some (n : Nat) (b : Board) (r c : Nat)
    (h : find_empty_cell b = some (r, c)) :
    solveF (n + 1) b = try_nums (solveF n) r c [1, 2, 3, 4, 5, 6, 7, 8, 9] b := by
  rw [solveF_succ, h]

theorem try_nums_cons_pos (recsolve : Board → Option (Bool × Board)) (r c num : Nat)
    (rest : List Nat) (x : Board) (hvm : is_valid_move x r c num = true) :
    try_nums recsolve r c (num :: rest) x =
      (match recsolve (Board.set_cell x r c num).2 with
      | none => none
      | some (true, b2) => some (true, b2)
      | some (false, b2) => try_nums recsolve r c rest (Board.clear_cell b2 r c)) := by
  simp only [try_nums]
  rw [if_pos hvm]

theorem try_nums_cons_neg (recsolve : Board → Option (Bool × Board)) (r c num : Nat)
    (rest : List Nat) (x : Board) (hvm : ¬ is_valid_move x r c num = true) :
    try_nums recsolve r c (num :: rest) x = try_nums recsolve r c rest x := by
  simp only [try_nums]
  rw [if_neg hvm]

/-- When the first empty cell of the board is a given cell, set_cell
silently refuses every candidate and the recursion repeats on the very
same board: for every fuel the solver either runs out of fuel or reports
failure with the board unchanged — it can never report success. -/
theorem solveF_stuck : ∀ (n : Nat) (b : Board) (r c : Nat),
    find_empty_cell b = some (r, c) → (b r c).is_given = true →
    solveF n b = none ∨ solveF n b = some (false, b) := by
  intro n
  induction n with
  | zero => intro b r c _ _; exact Or.inl rfl
  | succ n ih =>
    intro b r c hfe hg
    rw [solveF_succ_some n b r c hfe]
    have loop : ∀ nums : List Nat,
        try_nums (solveF n) r c nums b = none ∨
        try_nums (solveF n) r c nums b = some (false, b) := by
      intro nums
      induction nums with
      | nil => exact Or.inr rfl
      | cons num rest ihn =>
        by_cases hvm : is_valid_move b r c num = true
        · rw [try_nums_cons_pos (solveF n) r c num rest b hvm,
            set_cell_given_snd b r c num hg]
          rcases ih b r c hfe hg with hrec | hrec
          · left
            rw [hrec]
          · rw [hrec]
            rcases ihn with h1 | h1
            · left
              show try_nums (solveF n) r c rest (Board.clear_cell b r c) = none
              rw [clear_cell_given b r c hg]
              exact h1
            · right
              show try_nums (solveF n) r c rest (Board.clear_cell b r c) = some (false, b)
              rw [clear_cell_given b r c hg]
              exact h1
        · rw [try_nums_cons_neg (solveF n) r c num rest b hvm]
          exact ihn
    exact loop [1, 2, 3, 4, 5, 6, 7, 8, 9]

/-! ### The solver only reads cell values and given flags -/

/-- Two boards agreeing, in range, on values and given flags (the
validity flags are never read by the solver). -/
def agrees (b1 b2 : Board) : Prop :=
  ∀ i j, i < 9 → j < 9 →
    (b1 i j).value = (b2 i j).value ∧ (b1 i j).is_given = (b2 i j).is_given

theorem find?_congr_local {α : Type} (p q : α → Bool) :
    ∀ l : List α, (∀ x ∈ l, p x = q x) → l.find? p = l.find? q := by
  intro l
  induction l with
  | nil => intro _; rfl
  | cons a t ih =>
    intro h
    simp only [List.find?]
    rw [h a (List.mem_cons_self a t)]
    cases q a
    · exact ih fun x hx => h x (List.mem_cons_of_mem a hx)
    · rfl

theorem find_empty_cell_congr (b1 b2 : Board) (h : agrees b1 b2) :
    find_empty_cell b1 = find_empty_cell b2 := by
  refine find?_congr_local _ _ allPositions fun p hp => ?_
  have hp2 := (mem_allPositions p).mp hp
  rw [(h p.1 p.2 hp2.1 hp2.2).1]

theorem is_valid_move_congr (b1 b2 : Board) (r c num : Nat)
    (h : agrees b1 b2) (hr : r < 9) (hc : c < 9) :
    is_valid_move b1 r c num = is_valid_move b2 r c num := by
  by_cases hnum : num = 0
  · subst hnum
    rw [is_valid_move_zero, is_valid_move_zero]
  · rw [Bool.eq_iff_iff, is_valid_move_char b1 r c num hr hc hnum,
      is_valid_move_char b2 r c num hr hc hnum]
    constructor
    · intro hh p hp hne hu
      have hp2 := (mem_allPositions p).mp hp
      rw [← (h p.1 p.2 hp2.1 hp2.2).1]
      exact hh p hp hne hu
    · intro hh p hp hne hu
      have hp2 := (mem_allPositions p).mp hp
      rw [(h p.1 p.2 hp2.1 hp2.2).1]
      exact hh p hp hne hu

theorem agrees_update (b1 b2 : Board) (r c : Nat) (c1 c2 : Cell)
    (h : agrees b1 b2) (hv : c1.value = c2.value) (hg : c1.is_given = c2.is_given) :
    agrees (update_cell b1 r c c1) (update_cell b2 r c c2) := by
  intro i j hi hj
  by_cases hij : i = r ∧ j = c
  · obtain ⟨rfl, rfl⟩ := hij
    rw [update_cell_same, update_cell_same]
    exact ⟨hv, hg⟩
  · rw [update_cell_other b1 r c c1 i j hij, update_cell_other b2 r c c2 i j hij]
    exact h i j hi hj

/-- The solver's behaviour depends only on cell values and given flags:
on two boards agreeing in range on those fields it runs out of fuel
together, or returns the same outcome with agreeing result boards. -/
theorem solveF_congr : ∀ (n : Nat) (b1 b2 : Board), agrees b1 b2 →
    (solveF n b1 = none ∧ solveF n b2 = none) ∨
    (∃ ok c1 c2, solveF n b1 = some (ok, c1) ∧ solveF n b2 = some (ok, c2) ∧
      agrees c1 c2) := by
  intro n
  induction n with
  | zero => intro b1 b2 _; exact Or.inl ⟨rfl, rfl⟩
  | succ n ih =>
    intro b1 b2 h
    have hfe12 : find_empty_cell b1 = find_empty_cell b2 := find_empty_cell_congr b1 b2 h
    cases hfe : find_empty_cell b1 with
    | none =>
      have hfe2 : find_empty_cell b2 = none := by rw [← hfe12]; exact hfe
      right
      exact ⟨true, b1, b2, solveF_succ_none n b1 hfe, solveF_succ_none n b2 hfe2, h⟩
    | some p =>
      obtain ⟨r, c⟩ := p
      have hfe2 : find_empty_cell b2 = some (r, c) := by rw [← hfe12]; exact hfe
      obtain ⟨hr, hc, _⟩ := find_empty_cell_some b1 r c hfe
      rw [solveF_succ_some n b1 r c hfe, solveF_succ_some n b2 r c hfe2]
      have loop : ∀ nums : List Nat, ∀ x1 x2 : Board, agrees x1 x2 →
          (try_nums (solveF n) r c nums x1 = none ∧
            try_nums (solveF n) r c nums x2 = none) ∨
          (∃ ok c1 c2, try_nums (solveF n) r c nums x1 = some (ok, c1) ∧
            try_nums (solveF n) r c nums x2 = some (ok, c2) ∧ agrees c1 c2) := by
        intro nums
        induction nums with
        | nil => intro x1 x2 hx; right; exact ⟨false, x1, x2, rfl, rfl, hx⟩
        | cons num rest ihn =>
          intro x1 x2 hx
          have hvme : is_valid_move x1 r c num = is_valid_move x2 r c num :=
            is_valid_move_congr x1 x2 r c num hx hr hc
          by_cases hvm1 : is_valid_move x1 r c num = true
          · have hvm2 : is_valid_move x2 r c num = true := by rw [← hvme]; exact hvm1
            rw [try_nums_cons_pos (solveF n) r c num rest x1 hvm1,
              try_nums_cons_pos (solveF n) r c num rest x2 hvm2]
            have hgeq : (x1 r c).is_given = (x2 r c).is_given := (hx r c hr hc).2
            by_cases hg1 : (x1 r c).is_given = true
            · have hg2 : (x2 r c).is_given = true := by rw [← hgeq]; exact hg1
              rw [set_cell_given_snd x1 r c num hg1, set_cell_given_snd x2 r c num hg2]
              rcases ih x1 x2 hx with ⟨e1, e2⟩ | ⟨ok, c1, c2, e1, e2, hcc⟩
              · left
                rw [e1, e2]
                exact ⟨rfl, rfl⟩
              · rw [e1, e2]
                cases ok with
                | true => right; exact ⟨true, c1, c2, rfl, rfl, hcc⟩
                | false =>
                  obtain ⟨gs1, _, _⟩ := solveF_sound n x1 false c1 e1
                  obtain ⟨gs2, _, _⟩ := solveF_sound n x2 false c2 e2
                  have hcg1 : (c1 r c).is_given = true := by rw [gs1 r c]; exact hg1
                  have hcg2 : (c2 r c).is_given = true := by rw [gs2 r c]; exact hg2
                  rcases ihn c1 c2 hcc with ⟨f1, f2⟩ | ⟨ok2, d1, d2, f1, f2, hdd⟩
                  · left
                    constructor
                    · show try_nums (solveF n) r c rest (Board.clear_cell c1 r c) = none
                      rw [clear_cell_given c1 r c hcg1]
                      exact f1
                    · show try_nums (solveF n) r c rest (Board.clear_cell c2 r c) = none
                      rw [clear_cell_given c2 r c hcg2]
                      exact f2
                  · right
                    refine ⟨ok2, d1, d2, ?_, ?_, hdd⟩
                    · show try_nums (solveF n) r c rest (Board.clear_cell c1 r c)
                        = some (ok2, d1)
                      rw [clear_cell_given c1 r c hcg1]
                      exact f1
                    · show try_nums (solveF n) r c rest (Board.clear_cell c2 r c)
                        = some (ok2, d2)
                      rw [clear_cell_given c2 r c hcg2]
                      exact f2
            · have hg1f : (x1 r c).is_given = false := by
                cases hgg : (x1 r c).is_given with
                | true => exact absurd hgg hg1
                | false => rfl
              have hg2f : (x2 r c).is_given = false := by rw [← hgeq]; exact hg1f
              rw [set_cell_ok_snd x1 r c num hg1f (Or.inr hvm1),
                set_cell_ok_snd x2 r c num hg2f (Or.inr hvm2)]
              have hupd : agrees
                  (update_cell x1 r c { x1 r c with value := num, is_valid := true })
                  (update_cell x2 r c { x2 r c with value := num, is_valid := true }) :=
                agrees_update x1 x2 r c _ _ hx rfl hgeq
              rcases ih _ _ hupd with ⟨e1, e2⟩ | ⟨ok, c1, c2, e1, e2, hcc⟩
              · left
                rw [e1, e2]
                exact ⟨rfl, rfl⟩
              · rw [e1, e2]
                cases ok with
                | true => right; exact ⟨true, c1, c2, rfl, rfl, hcc⟩
                | false =>
                  obtain ⟨gs1, _, _⟩ := solveF_sound n _ false c1 e1
                  obtain ⟨gs2, _, _⟩ := solveF_sound n _ false c2 e2
                  have hcg1 : (c1 r c).is_given = false := by
                    rw [gs1 r c, update_cell_given_eq x1 r c
                      { x1 r c with value := num, is_valid := true } rfl r c]
                    exact hg1f
                  have hcg2 : (c2 r c).is_given = false := by
                    rw [gs2 r c, update_cell_given_eq x2 r c
                      { x2 r c with value := num, is_valid := true } rfl r c]
                    exact hg2f
                  have hclr : agrees
                      (update_cell c1 r c { c1 r c with value := 0 })
                      (update_cell c2 r c { c2 r c with value := 0 }) :=
                    agrees_update c1 c2 r c _ _ hcc rfl ((hcc r c hr hc).2)
                  rcases ihn _ _ hclr with ⟨f1, f2⟩ | ⟨ok2, d1, d2, f1, f2, hdd⟩
                  · left
                    constructor
                    · show try_nums (solveF n) r c rest (Board.clear_cell c1 r c) = none
                      rw [clear_cell_free c1 r c hcg1]
                      exact f1
                    · show try_nums (solveF n) r c rest (Board.clear_cell c2 r c) = none
                      rw [clear_cell_free c2 r c hcg2]
                      exact f2
                  · right
                    refine ⟨ok2, d1, d2, ?_, ?_, hdd⟩
                    · show try_nums (solveF n) r c rest (Board.clear_cell c1 r c)
                        = some (ok2, d1)
                      rw [clear_cell_free c1 r c hcg1]
                      exact f1
                    · show try_nums (solveF n) r c rest (Board.clear_cell c2 r c)
                        = some (ok2, d2)
                      rw [clear_cell_free c2 r c hcg2]
                      exact f2
          · have hvm2 : ¬ is_valid_move x2 r c num = true := by rw [← hvme]; exact hvm1
            rw [try_nums_cons_neg (solveF n) r c num rest x1 hvm1,
              try_nums_cons_neg (solveF n) r c num rest x2 hvm2]
            exact ihn x1 x2 hx
      exact loop [1, 2, 3, 4, 5, 6, 7, 8, 9] b1 b2 h

instance (b : Board) : Decidable (consistent b) := by
  unfold consistent; exact inferInstance

instance (b : Board) : Decidable (noGivenEmpty b) := by
  unfold noGivenEmpty; exact inferInstance

/-! ### Concrete boards used as witnesses and counterexamples -/

/-- A full, duplicate-free board (the classic shifted-rows solution). -/
def fullB : Board := fun i j => ⟨(i * 3 + i / 3 + j) % 9 + 1, false, true⟩

/-- A full board whose 81 cells all hold 1, with every validity flag
still at its default true. -/
def onesBoard : Board := fun _ _ => ⟨1, false, true⟩

/-- An all-empty board whose cell (0,0) is flagged given. -/
def stuckB : Board := fun i j => if i = 0 ∧ j = 0 then ⟨0, true, true⟩ else ⟨0, false, true⟩

/-- A board with a single given clue at (0,0). -/
def givenB : Board := fun i j => if i = 0 ∧ j = 0 then ⟨5, true, true⟩ else defaultCell

/-- A board whose only clue is a 1 at (0,0), not given. -/
def rowDupB : Board := fun i j => if i = 0 ∧ j = 0 then ⟨1, false, true⟩ else defaultCell

/-- An unsolvable board: at its first empty cell (0,0) the row holds
2..9 and the column holds 1, so all nine candidates are rejected. -/
def blockedB : Board := fun i j =>
  if i = 0 ∧ j ≠ 0 ∧ j < 9 then ⟨j + 1, false, true⟩
  else if i = 1 ∧ j = 0 then ⟨1, false, true⟩
  else defaultCell

/-- The full board fullB with its last cell (8,8) cleared: a solvable
board with exactly one empty cell (its solved value is 8). -/
def almostB : Board := update_cell fullB 8 8 ⟨0, false, true⟩

/-- On stuckB the solver runs out of any fuel: every candidate passes
validation on the empty board, set_cell refuses the given cell, and the
recursion repeats on the identical board. -/
theorem solveF_stuckB_none : ∀ n, solveF n stuckB = none := by
  intro n
  induction n with
  | zero => rfl
  | succ n ih =>
    rw [solveF_succ_some n stuckB 0 0 (by decide),
      try_nums_cons_pos (solveF n) 0 0 1 [2, 3, 4, 5, 6, 7, 8, 9] stuckB (by decide),
      set_cell_given_snd stuckB 0 0 1 (by decide), ih]

/-! ### Supporting lemmas about the puzzle generator -/

/-- Changing one cell changes the number of empty cells by at most one
upward. -/
theorem countP_le_of_eq_off_one {α : Type} (p q : α → Bool) :
    ∀ (l : List α) (x : α), l.Nodup → (∀ y ∈ l, y ≠ x → p y = q y) →
      l.countP q ≤ l.countP p + 1 := by
  intro l
  induction l with
  | nil => intro x _ _; simp [List.countP_nil]
  | cons a t ih =>
    intro x hnd hcong
    rw [List.countP_cons, List.countP_cons]
    by_cases hax : a = x
    · subst hax
      have hat : a ∉ t := (List.nodup_cons.mp hnd).1
      have ht : t.countP q = t.countP p := by
        refine List.countP_congr fun y hy => ?_
        rw [hcong y (List.mem_cons_of_mem a hy) (fun he => hat (he ▸ hy))]
      have h1 : (if q a = true then 1 else 0) ≤ 1 := by split <;> omega
      omega
    · have ha : p a = q a := hcong a (List.mem_cons_self a t) hax
      have := ih x (List.nodup_cons.mp hnd).2
        fun y hy hne => hcong y (List.mem_cons_of_mem a hy) hne
      rw [← ha]
      omega

theorem emptyCount_update_le (b : Board) (r c : Nat) (cell : Cell) :
    emptyCount (update_cell b r c cell) ≤ emptyCount b + 1 := by
  refine countP_le_of_eq_off_one _ _ allPositions (r, c) allPositions_nodup
    fun y _ hy => ?_
  rw [update_cell_other b r c cell y.1 y.2 ((ne_pair_iff y r c).mp hy)]

theorem emptyCount_eq_zero_of_full (b : Board) (h : Board.is_full b = true) :
    emptyCount b = 0 := by
  rw [Board.is_full, List.all_eq_true] at h
  refine List.countP_eq_zero.mpr fun p hp => ?_
  have := h p hp
  simp only [Bool.not_eq_true'] at this
  simp [this]

/-- The carving loop removes at most `count - removed` further cells. -/
theorem remove_numbers_le : ∀ (positions : List (Nat × Nat)) (b : Board)
    (count removed : Nat),
    emptyCount (remove_numbers positions b count removed) ≤
      emptyCount b + (count - removed) := by
  intro positions
  induction positions with
  | nil => intro b count removed; simp [remove_numbers]
  | cons pos rest ih =>
    intro b count removed
    obtain ⟨r, c⟩ := pos
    simp only [remove_numbers]
    by_cases hstop : count ≤ removed
    · rw [if_pos hstop]
      omega
    · rw [if_neg hstop]
      by_cases hz : ((b r c).value == 0) = true
      · rw [if_pos hz]
        have := ih b count removed
        omega
      · rw [if_neg hz]
        cases hsol : Solver.solve (copy_board_gen
            (update_cell b r c { b r c with value := 0 })) with
        | none =>
          refine le_trans (ih _ count removed) ?_
          refine Nat.add_le_add_right (le_of_eq (emptyCount_congr _ b
            fun i j _ _ => ?_)) _
          by_cases hij : i = r ∧ j = c
          · obtain ⟨rfl, rfl⟩ := hij
            rw [update_cell_same]
          · rw [update_cell_other _ r c _ i j hij, update_cell_other b r c _ i j hij]
        | some res =>
          obtain ⟨ok, sb⟩ := res
          cases ok with
          | true =>
            refine le_trans (ih _ count (removed + 1)) ?_
            refine le_trans (Nat.add_le_add_right (emptyCount_update_le b r c _) _) ?_
            omega
          | false =>
            refine le_trans (ih _ count removed) ?_
            refine Nat.add_le_add_right (le_of_eq (emptyCount_congr _ b
              fun i j _ _ => ?_)) _
            by_cases hij : i = r ∧ j = c
            · obtain ⟨rfl, rfl⟩ := hij
              rw [update_cell_same]
            · rw [update_cell_other _ r c _ i j hij, update_cell_other b r c _ i j hij]

/-- mark_givens changes no cell value. -/
theorem mark_givens_value (b : Board) (i j : Nat) :
    ((mark_givens b) i j).value = (b i j).value := by
  unfold mark_givens
  split <;> rfl

/-- Every nonzero in-range cell of a generated puzzle carries the given
flag (step 3 of generate, unconditionally). -/
theorem generate_marks_nonzero_given (p1 p2 p3 : List Nat)
    (positions : List (Nat × Nat)) (k : Nat) (i j : Nat) (hi : i < 9) (hj : j < 9)
    (hnz : ((generate p1 p2 p3 positions k) i j).value ≠ 0) :
    ((generate p1 p2 p3 positions k) i j).is_given = true := by
  unfold generate mark_givens at hnz ⊢
  by_cases hcond : i < 9 ∧ j < 9 ∧
      ¬ ((remove_numbers positions (create_full_board p1 p2 p3) k 0) i j).value = 0
  · rw [if_pos hcond]
  · rw [if_neg hcond] at hnz
    exact absurd ⟨hi, hj, hnz⟩ hcond

/-- If the internal full-board construction succeeds, a generated puzzle
has at most `k` empty cells: the carving loop never removes more cells
than requested. -/
theorem generate_emptyCount_le (p1 p2 p3 : List Nat)
    (positions : List (Nat × Nat)) (k : Nat)
    (hfull : Board.is_full (create_full_board p1 p2 p3) = true) :
    emptyCount (generate p1 p2 p3 positions k) ≤ k := by
  unfold generate
  rw [emptyCount_congr _ (remove_numbers positions (create_full_board p1 p2 p3) k 0)
    fun i j _ _ => mark_givens_value _ i j]
  have := remove_numbers_le positions (create_full_board p1 p2 p3) k 0
  rw [emptyCount_eq_zero_of_full _ hfull] at this
  omega

/-! ### Claim C1 -/

/-- C1 fails on the code: is_board_solved checks the stored is_valid
flags, not duplicate-freeness.  The all-ones board (all validity flags
at their default true) is full of duplicates in every unit, yet
is_board_solved reports true. -/
theorem c1_counterexample :
    is_board_solved onesBoard = true ∧
    ¬ (Board.is_full onesBoard = true ∧ consistent onesBoard) := by
  constructor
  · decide
  · intro hcl
    have := hcl.2 (0, 0) (by decide) (0, 1) (by decide) (by decide)
      (Or.inl rfl) (by decide)
    exact this rfl

/-- C1 (amended): is_board_solved(grid) returns true if and only if
every one of the 81 cells is nonzero and every cell's stored is_valid
flag is true (the flag last written by mark_valid / mark_invalid), not
the recomputed duplicate-freeness of the grid. -/
theorem c1_theorem (b : Board) :
    is_board_solved b = true ↔
      (Board.is_full b = true ∧ ∀ p ∈ allPositions, (b p.1 p.2).is_valid = true) := by
  simp [is_board_solved, List.all_eq_true]

/-- C1 witness: the amended equivalence evaluated on the all-ones
board. -/
theorem c1_witness : is_board_solved onesBoard = true ∧ (onesBoard 0 0).is_valid = true :=
  ⟨by decide, ((c1_theorem onesBoard).mp (by decide)).2 (0, 0) (by decide)⟩

/-! ### Claim C2 -/

/-- C2 fails on the code: set_cell of a rule-violating value returns
false but mutates state — it marks the target cell invalid.  On the
board whose cell (0,0) holds 1, setting (0,1) to 1 returns false yet
flips (0,1)'s is_valid flag from true to false. -/
theorem c2_counterexample :
    (Board.set_cell rowDupB 0 1 1).1 = false ∧
    ((Board.set_cell rowDupB 0 1 1).2 0 1).is_valid = false ∧
    (rowDupB 0 1).is_valid = true := by
  decide

/-- C2 (amended): set_cell returns false on a given cell, leaving the
grid byte-for-byte unchanged; on a free cell with a nonzero value that
violates the rules it also returns false and leaves every value and
given flag unchanged, but it marks the target cell invalid (its
is_valid flag becomes false). -/
theorem c2_theorem (b : Board) (row col v : Nat) :
    ((b row col).is_given = true → Board.set_cell b row col v = (false, b)) ∧
    ((b row col).is_given = false → v ≠ 0 → is_valid_move b row col v = false →
      (Board.set_cell b row col v).1 = false ∧
      (∀ i j, ((Board.set_cell b row col v).2 i j).value = (b i j).value) ∧
      (∀ i j, ((Board.set_cell b row col v).2 i j).is_given = (b i j).is_given) ∧
      ((Board.set_cell b row col v).2 row col).is_valid = false) := by
  constructor
  · intro hg
    exact set_cell_given b row col v hg
  · intro hg hv hm
    rw [set_cell_invalid b row col v hg hv hm]
    refine ⟨rfl, ?_, ?_, ?_⟩
    · intro i j
      show ((update_cell b row col { b row col with is_valid := false }) i j).value
        = (b i j).value
      by_cases hij : i = row ∧ j = col
      · obtain ⟨rfl, rfl⟩ := hij
        rw [update_cell_same]
      · rw [update_cell_other b row col _ i j hij]
    · intro i j
      exact update_cell_given_eq b row col { b row col with is_valid := false } rfl i j
    · show ((update_cell b row col { b row col with is_valid := false }) row col).is_valid
        = false
      rw [update_cell_same]

/-- C2 witness: the amended statement applied to a given cell and to a
rule-violating write. -/
theorem c2_witness :
    Board.set_cell givenB 0 0 7 = (false, givenB) ∧
    ((Board.set_cell rowDupB 0 1 1).2 0 1).is_valid = false :=
  ⟨(c2_theorem givenB 0 0 7).1 (by decide),
   ((c2_theorem rowDupB 0 1 1).2 (by decide) (by decide) (by decide)).2.2.2⟩

/-! ### Claim C3 -/

/-- C3: whenever solve succeeds from a duplicate-free start (the empty
board of the claim is duplicate-free), the resulting assignment is full
— all 81 cells nonzero — and has no duplicate nonzero value in any row,
column, or 3x3 box. -/
theorem c3_theorem (n : Nat) (b b2 : Board) (hcons : consistent b)
    (h : solveF n b = some (true, b2)) :
    Board.is_full b2 = true ∧ consistent b2 := by
  obtain ⟨_, _, fs⟩ := solveF_sound n b true b2 h
  exact ⟨(fs rfl).1, (fs rfl).2 hcons⟩

set_option maxRecDepth 100000 in
/-- C3 witness: a successful solve run (on the already-complete
duplicate-free board, where solve succeeds immediately). -/
theorem c3_witness : Board.is_full fullB = true ∧ consistent fullB :=
  c3_theorem 1 fullB fullB (by decide) (solveF_succ_none 0 fullB (by decide))

/-! ### Claim C7 -/

/-- C7: on an already-complete, consistent grid, solve returns true and
performs no mutation — the result is the very same board. -/
theorem c7_theorem (b : Board) (hfull : Board.is_full b = true)
    (_hcons : consistent b) :
    Solver.solve b = some (true, b) :=
  solveF_succ_none 81 b ((find_empty_cell_eq_none_iff b).mpr hfull)

set_option maxRecDepth 100000 in
/-- C7 witness: solve on the concrete full consistent board. -/
theorem c7_witness : Solver.solve fullB = some (true, fullB) :=
  c7_theorem fullB (by decide) (by decide)

/-! ### Claim C8 -/

/-- C8 fails on the code: on the board stuckB — all cells empty, cell
(0,0) flagged given — every candidate passes validation, set_cell
silently refuses the given cell, and solve recurses forever on the
unchanged board: no recursion budget ever yields an answer. -/
theorem c8_counterexample :
    ¬ ∃ (n : Nat) (res : Bool × Board), solveF n stuckB = some res := by
  rintro ⟨n, res, h⟩
  rw [solveF_stuckB_none n] at h
  exact Option.noConfusion h

/-- C8 (amended): solve terminates — returns either true or false after
finitely many steps — on every 9x9 grid in which no given cell is
empty; fuel 82 (one nested call per empty cell plus one) always
suffices. -/
theorem c8_theorem (b : Board) (h : noGivenEmpty b) :
    ∃ res, Solver.solve b = some res :=
  solveF_progress 82 b h (by have := emptyCount_le b; omega)

/-- C8 witness: termination on the empty board. -/
theorem c8_witness : ∃ res, Solver.solve emptyBoard = some res :=
  c8_theorem emptyBoard (by decide)

/-! ### Claim C9 -/

/-- C9: is_valid_move accepts value 0 unconditionally, and accepts a
value 1..9 exactly when no cell other than (row, col) itself in the
same row, the same column, or the same 3x3 box (rows row/3*3.., columns
col/3*3..) currently holds that value. -/
theorem c9_theorem (b : Board) (row col v : Nat)
    (hr : row < 9) (hc : col < 9) (h1 : 1 ≤ v) (h9 : v ≤ 9) :
    is_valid_move b row col 0 = true ∧
    (is_valid_move b row col v = true ↔
      ∀ p ∈ allPositions, p ≠ (row, col) → same_unit p (row, col) →
        (b p.1 p.2).value ≠ v) :=
  ⟨is_valid_move_zero b row col,
   is_valid_move_char b row col v hr hc (by omega)⟩

/-- C9 witness: both directions evaluated on the empty board at
(0,0) with value 1. -/
theorem c9_witness :
    is_valid_move emptyBoard 0 0 0 = true ∧ is_valid_move emptyBoard 0 0 1 = true := by
  refine ⟨(c9_theorem emptyBoard 0 0 1 (by decide) (by decide) (by decide) (by decide)).1, ?_⟩
  refine (c9_theorem emptyBoard 0 0 1 (by decide) (by decide) (by decide)
    (by decide)).2.mpr ?_
  intro p _ _ _
  simp [emptyBoard, defaultCell]

/-! ### Claim C10 -/

/-- C10: when solve returns false on a grid with no empty given cell,
every cell's value after the call equals its value before the call —
backtracking cleared every tentative placement. -/
theorem c10_theorem (n : Nat) (b b2 : Board) (_hng : noGivenEmpty b)
    (h : solveF n b = some (false, b2)) :
    ∀ i j, (b2 i j).value = (b i j).value :=
  fun i j => (solveF_sound n b false b2 h).2.1 rfl i j

/-- C10 witness: solve fails on blockedB (all nine candidates of its
first empty cell conflict) and the values are untouched. -/
theorem c10_witness :
    noGivenEmpty blockedB ∧ (blockedB 0 0).value = (blockedB 0 0).value := by
  have hsolve : solveF 1 blockedB = some (false, blockedB) := rfl
  exact ⟨by decide, c10_theorem 1 blockedB blockedB (by decide) hsolve 0 0⟩

/-! ### Unfolding get_hint -/

theorem get_hint_none_of_no_empty (k : Nat) (b : Board)
    (h : find_empty_cells b = []) : get_hint k b = none := by
  simp only [get_hint]
  rw [if_pos h]

theorem get_hint_none_of_fail (k : Nat) (b : Board) (res : Board)
    (hne : ¬ find_empty_cells b = [])
    (hsol : Solver.solve (copy_board_hint b) = some (false, res)) :
    get_hint k b = none := by
  simp only [get_hint]
  rw [if_neg hne, hsol]

theorem get_hint_eq_of_solve (k : Nat) (b : Board) (sb : Board)
    (hne : ¬ find_empty_cells b = [])
    (hsol : Solver.solve (copy_board_hint b) = some (true, sb)) :
    get_hint k b = some
      (((find_empty_cells b).getD (k % (find_empty_cells b).length) (0, 0)).1,
       ((find_empty_cells b).getD (k % (find_empty_cells b).length) (0, 0)).2,
       (sb ((find_empty_cells b).getD (k % (find_empty_cells b).length) (0, 0)).1
           ((find_empty_cells b).getD (k % (find_empty_cells b).length) (0, 0)).2).value) := by
  simp only [get_hint]
  rw [if_neg hne, hsol]

/-! ### Claim C5 -/

/-- C5: on a solvable grid with exactly one empty cell, get_hint
returns that cell's coordinates together with the value solve places
there, whatever random choice index is drawn.  The caller's grid is
never written: get_hint only reads it and runs the solver on the
internal copy_board_hint clone, as the embedding's types show. -/
theorem c5_theorem (k : Nat) (b : Board) (r0 c0 : Nat) (sb : Board)
    (hone : find_empty_cells b = [(r0, c0)])
    (hsolve : Solver.solve b = some (true, sb)) :
    get_hint k b = some (r0, c0, (sb r0 c0).value) := by
  have hs : solveF 82 b = some (true, sb) := hsolve
  have hmem : (r0, c0) ∈ find_empty_cells b := by
    rw [hone]
    exact List.mem_cons_self _ _
  obtain ⟨⟨hr0, hc0⟩, hv0⟩ := (mem_find_empty_cells b (r0, c0)).mp hmem
  have hfe : find_empty_cell b = some (r0, c0) := by
    rw [find_empty_cell_eq_head, hone]
    rfl
  have hgf : (b r0 c0).is_given = false := by
    cases hgg : (b r0 c0).is_given with
    | false => rfl
    | true =>
      rcases solveF_stuck 82 b r0 c0 hfe hgg with hh | hh
      · rw [hs] at hh
        exact Option.noConfusion hh
      · rw [hs] at hh
        injection hh with h1
        injection h1
  have hagr : agrees b (copy_board_hint b) := by
    intro i j hi hj
    by_cases hz : (b i j).value = 0
    · have hmem2 : (i, j) ∈ find_empty_cells b :=
        (mem_find_empty_cells b (i, j)).mpr ⟨⟨hi, hj⟩, hz⟩
      rw [hone, List.mem_singleton] at hmem2
      have hi0 : i = r0 := by
        have := congrArg Prod.fst hmem2
        simpa using this
      have hj0 : j = c0 := by
        have := congrArg Prod.snd hmem2
        simpa using this
      subst hi0
      subst hj0
      have hcopy : copy_board_hint b i j = defaultCell := by
        simp [copy_board_hint, hz]
      rw [hcopy]
      exact ⟨hz, hgf⟩
    · have hcopy : copy_board_hint b i j =
          { value := (b i j).value, is_given := (b i j).is_given, is_valid := true } := by
        simp [copy_board_hint, hi, hj, hz]
      rw [hcopy]
      exact ⟨rfl, rfl⟩
  rcases solveF_congr 82 b (copy_board_hint b) hagr with ⟨e1, _⟩ | ⟨ok, c1, c2, e1, e2, hcc⟩
  · rw [hs] at e1
    exact Option.noConfusion e1
  · rw [hs] at e1
    injection e1 with h1
    injection h1 with h2 h3
    subst h3
    have e2s : Solver.solve (copy_board_hint b) = some (true, c2) := by
      show solveF 82 (copy_board_hint b) = some (true, c2)
      rw [e2, ← h2]
    have hne : ¬ (find_empty_cells b = []) := by
      rw [hone]
      simp
    rw [get_hint_eq_of_solve k b c2 hne e2s, hone]
    have hval : (c2 r0 c0).value = (sb r0 c0).value := ((hcc r0 c0 hr0 hc0).1).symm
    simp only [List.length_cons, List.length_nil, Nat.zero_add, Nat.mod_one,
      List.getD_cons_zero]
    simp [hval]

set_option maxRecDepth 100000 in
/-- C5 witness: the hint on the full board with (8,8) cleared reveals
(8,8) with the solver's value 8. -/
theorem c5_witness : get_hint 0 almostB = some (8, 8, 8) := by
  have hsolve : Solver.solve almostB = some (true, (Board.set_cell almostB 8 8 8).2) := rfl
  have h := c5_theorem 0 almostB 8 8 (Board.set_cell almostB 8 8 8).2 (by decide) hsolve
  rw [h]
  rfl

/-! ### Claim C6 -/

/-- C6: get_hint returns none exactly when the grid has no empty cell
or the solver fails on the clone of the current partial assignment; and
every returned hint (row, col, value) names a cell that is empty in the
caller's grid. -/
theorem c6_theorem (k : Nat) (b : Board) (r c v : Nat) :
    (get_hint k b = none ↔
      (find_empty_cells b = [] ∨
        ∀ sb, ¬ Solver.solve (copy_board_hint b) = some (true, sb))) ∧
    (get_hint k b = some (r, c, v) → (b r c).value = 0) := by
  by_cases hemp : find_empty_cells b = []
  · have hg : get_hint k b = none := get_hint_none_of_no_empty k b hemp
    constructor
    · exact iff_of_true hg (Or.inl hemp)
    · intro hsome
      rw [hg] at hsome
      exact Option.noConfusion hsome
  · have hngc : noGivenEmpty (copy_board_hint b) := by
      intro p _ hz
      by_cases hcond : p.1 < 9 ∧ p.2 < 9 ∧ ¬ (b p.1 p.2).value = 0
      · have hcopy : copy_board_hint b p.1 p.2 =
            { value := (b p.1 p.2).value, is_given := (b p.1 p.2).is_given,
              is_valid := true } := by
          simp [copy_board_hint, hcond.1, hcond.2.1, hcond.2.2]
        rw [hcopy] at hz
        exact absurd hz hcond.2.2
      · have hcopy : copy_board_hint b p.1 p.2 = defaultCell := by
          unfold copy_board_hint
          rw [if_neg hcond]
        rw [hcopy]
        rfl
    obtain ⟨⟨ok, sb0⟩, hsol⟩ := solveF_progress 82 (copy_board_hint b) hngc
      (by have := emptyCount_le (copy_board_hint b); omega)
    have hsols : Solver.solve (copy_board_hint b) = some (ok, sb0) := hsol
    cases ok with
    | false =>
      have hg : get_hint k b = none := get_hint_none_of_fail k b sb0 hemp hsols
      constructor
      · refine iff_of_true hg (Or.inr fun sb hcontra => ?_)
        rw [hsols] at hcontra
        injection hcontra with h1
        injection h1 with h2 h3
        exact Bool.noConfusion h2
      · intro hsome
        rw [hg] at hsome
        exact Option.noConfusion hsome
    | true =>
      have hg := get_hint_eq_of_solve k b sb0 hemp hsols
      have hlenpos : 0 < (find_empty_cells b).length := List.length_pos.mpr hemp
      have hidx : k % (find_empty_cells b).length < (find_empty_cells b).length :=
        Nat.mod_lt k hlenpos
      have hmem : (find_empty_cells b).getD (k % (find_empty_cells b).length) (0, 0)
          ∈ find_empty_cells b := by
        rw [List.getD_eq_getElem (find_empty_cells b) (0, 0) hidx]
        exact List.getElem_mem hidx
      have hempty := ((mem_find_empty_cells b _).mp hmem).2
      constructor
      · refine iff_of_false (by rw [hg]; exact fun hcontra => Option.noConfusion hcontra) ?_
        rintro (h1 | h2)
        · exact hemp h1
        · exact h2 sb0 hsols
      · intro hsome
        rw [hg] at hsome
        injection hsome with h1
        rw [Prod.mk.injEq] at h1
        obtain ⟨hh1, h1⟩ := h1
        rw [Prod.mk.injEq] at h1
        obtain ⟨hh2, _⟩ := h1
        rw [← hh1, ← hh2]
        exact hempty

set_option maxRecDepth 100000 in
/-- C6 witness: on the single-empty-cell board the returned hint names
an empty cell of the original grid. -/
theorem c6_witness : (almostB 8 8).value = 0 :=
  (c6_theorem 0 almostB 8 8 8).2 (by decide)
